import Mathlib

/-!
Verification of `pdf_vector_raster_inspector.py`: a per-page PDF content
auditor.  The geometry arithmetic of the source (Python floats compared
against the fixed thresholds 0.6, 0.1, 0.02, 0.15, 0.85) is embedded over
`ℚ` with exact threshold constants; Python sets are embedded as
duplicate-free lists; Python's `sorted` on strings is embedded as an
insertion sort over the lexicographic code-point order; the page iteration
of `analyze_pdf` and its exception behaviour are embedded as a fold
returning `Except`, together with an explicit flag recording whether
`doc.close()` was reached.
-/

namespace PdfInspector

/-- `classify_raster_block` lines 52–57: `ratio = area / page_area` where the
box width and height are clamped at zero and the page area is floored at 1. -/
def ratioOf (x0 y0 x1 y1 pw ph : ℚ) : ℚ :=
  (max 0 (x1 - x0) * max 0 (y1 - y0)) / max 1 (pw * ph)

/-- `classify_raster_block` lines 72–79: the small-image placement branch
(`ratio ≤ 0.02`): `stamp` for near-bottom corners, else `logo` for near-top
corners, else the fallback `image`. -/
def placementLabel (x0 y0 x1 y1 pw ph : ℚ) : String :=
  if 85/100 * ph ≤ y1 ∧ (85/100 * pw ≤ x1 ∨ x0 ≤ 15/100 * pw) then "stamp"
  else if y0 ≤ 15/100 * ph ∧ (85/100 * pw ≤ x1 ∨ x0 ≤ 15/100 * pw) then "logo"
  else "image"

/-- `classify_raster_block(bbox, page_w, page_h)` (source lines 46–82):
ordered rule evaluation over the area ratio, with the placement branch for
small images. -/
def classify_raster_block (x0 y0 x1 y1 pw ph : ℚ) : String :=
  let ratio := ratioOf x0 y0 x1 y1 pw ph
  if 6/10 ≤ ratio then "scanned_page"
  else if 1/10 ≤ ratio then "large_image"
  else if ratio ≤ 2/100 then placementLabel x0 y0 x1 y1 pw ph
  else "image"

/-- One item of a drawing's `items` list, as `collect_vector_kinds_from_drawings`
discriminates them (source lines 116–127): a dictionary record (carrying its
`"type"` value when that key is present), a positional operator tuple
(carrying the stringified first element), or anything else. -/
inductive DrawItem where
  | dict (typeVal : Option String)
  | tup (op : String)
  | other
deriving DecidableEq, Repr

/-- `OPERATOR_MAP` (source lines 104–113). -/
def OPERATOR_MAP : List (String × String) :=
  [("l", "line"), ("c", "curve"), ("re", "rect"), ("m", "moveto"),
   ("h", "closepath"), ("q", "save_state"), ("Q", "restore_state"),
   ("qu", "quad")]

/-- Python's `str.lower()`, character by character (ASCII case mapping,
which covers the operator codes and type tags this program handles). -/
def lowerStr (s : String) : String := ⟨s.data.map Char.toLower⟩

/-- The kind tag one item contributes, or `none` when the item is neither a
dictionary nor a tuple (source lines 120–127).  A dictionary uses its
lower-cased `"type"` value with `""` as the missing-key default; a tuple
lower-cases its operator code first and then consults `OPERATOR_MAP`,
defaulting to the lower-cased code itself. -/
def itemKind : DrawItem → Option String
  | .dict t => some (lowerStr (t.getD ""))
  | .tup op => some ((OPERATOR_MAP.lookup (lowerStr op)).getD (lowerStr op))
  | .other => none

/-- Python-set insertion embedded on lists: add the tag unless present. -/
def addKind (k : String) (ks : List String) : List String :=
  if k ∈ ks then ks else ks ++ [k]

/-- `collect_vector_kinds_from_drawings(drawings)` (source lines 98–128):
each drawing contributes the kinds of its items; the result is the
accumulated set (embedded as a duplicate-free list). -/
def collect_vector_kinds_from_drawings (drawings : List (List DrawItem)) : List String :=
  drawings.foldl
    (fun ks d =>
      d.foldl
        (fun ks item =>
          match itemKind item with
          | some k => addKind k ks
          | none => ks) ks) []

/-- Lexicographic (code-point) comparison of characters lists: the order
Python's string comparison uses. -/
def charLe : List Char → List Char → Bool
  | [], _ => true
  | _ :: _, [] => false
  | a :: as, b :: bs =>
    if a.toNat < b.toNat then true
    else if b.toNat < a.toNat then false
    else charLe as bs

/-- Lexicographic (code-point) string comparison, as Python's `<=`. -/
def strLe (a b : String) : Bool := charLe a.data b.data

/-- Insert a string into a (sorted) list before the first element it
does not exceed. -/
def insertTag (s : String) : List String → List String
  | [] => [s]
  | x :: xs => if strLe s x then s :: x :: xs else x :: insertTag s xs

/-- Python's `sorted` on a list of strings: ascending lexicographic
code-point order (on the duplicate-free lists produced here any correct
sort yields this same result). -/
def sortTags (l : List String) : List String := l.foldr insertTag []

/-- The per-page data `analyze_pdf` reads from the parsing library (source
lines 136–150): page geometry, the image blocks with their bounding boxes
(`get_image_blocks`), the word-token count (`page.get_text("words")`), and
the drawings' item lists (`page.get_drawings`). -/
structure PageContent where
  width : ℚ
  height : ℚ
  imageBlocks : List (ℚ × ℚ × ℚ × ℚ)
  words : Nat
  drawings : List (List DrawItem)
deriving Repr

/-- The per-page result record (source lines 158–164). -/
structure PageReport where
  page : Nat
  vector_content : Bool
  raster_content : Bool
  raster_objects : List String
  vector_objects : List String
deriving DecidableEq, Repr

/-- The body of `analyze_pdf`'s page loop (source lines 135–165): classify
every image block into a label set, collect the vector kinds, prepend
`"text"` when the page has words, and assemble the page record. -/
def analyzePage (i : Nat) (pg : PageContent) : PageReport :=
  let raster_labels := pg.imageBlocks.foldl
    (fun ls b => addKind (classify_raster_block b.1 b.2.1 b.2.2.1 b.2.2.2 pg.width pg.height) ls) []
  let has_text := 0 < pg.words
  let vector_kinds := collect_vector_kinds_from_drawings pg.drawings
  let vector_objects := (if has_text then ["text"] else []) ++ sortTags vector_kinds
  { page := i
    vector_content := !vector_objects.isEmpty
    raster_content := !pg.imageBlocks.isEmpty
    raster_objects := sortTags raster_labels
    vector_objects := vector_objects }

/-- A page as the document iteration sees it: either its primitives extract
cleanly, or extraction raises (the spec's `PageExtractionError` at the
parsing-library boundary — e.g. `page.get_text` failing on a corrupt page
object), which aborts the loop body by exception. -/
inductive Page where
  | ok (content : PageContent)
  | corrupt
deriving Repr

/-- A document handle: its pages in order. -/
structure Doc where
  pages : List Page
deriving Repr

/-- Outcome of `analyze_pdf` (source lines 131–168): the returned report or
the propagated exception, together with whether the `doc.close()` on line
167 was reached before the function exited. -/
structure RunResult where
  result : Except Unit (List PageReport)
  docClosed : Bool
deriving Repr

/-- The `for i, page in enumerate(doc, start=1)` loop (source lines
135–165): pages are processed in order with 1-based numbering, results are
appended; a page whose extraction raises aborts the loop with the
exception. -/
def analyzeLoop (i : Nat) (ps : List Page) (acc : List PageReport) :
    Except Unit (List PageReport) :=
  match ps with
  | [] => .ok acc
  | .ok c :: rest => analyzeLoop (i + 1) rest (acc ++ [analyzePage i c])
  | .corrupt :: _ => .error ()

/-- `analyze_pdf` (source lines 131–168): run the page loop; on normal
completion `doc.close()` runs and the report is returned; an exception
raised inside the loop propagates, and — the function body having no
`try`/`finally` — `doc.close()` is never reached on that path. -/
def analyze_pdf (doc : Doc) : RunResult :=
  match analyzeLoop 1 doc.pages [] with
  | .ok res => { result := .ok res, docClosed := true }
  | .error e => { result := .error e, docClosed := false }

/-- Discriminator for the catch-all case of `DrawItem`. -/
def DrawItem.isOther : DrawItem → Bool
  | .other => true
  | _ => false

/-- A page with no image blocks, no words and no drawings. -/
def pgEmpty : PageContent := ⟨10, 10, [], 0, []⟩

/-- The page of §8's ordering scenario: selectable text plus one rectangle
and one line drawing operation. -/
def examplePg : PageContent := ⟨10, 10, [], 1, [[.tup "re", .tup "l"]]⟩

/-- A page whose only drawing item is a dictionary record without a
`"type"` key. -/
def dictOnlyPg : PageContent := ⟨10, 10, [], 0, [[.dict none]]⟩

/-- A concrete two-page document on which every page extracts cleanly. -/
def wDoc : Doc := ⟨[.ok pgEmpty, .ok examplePg]⟩

/-- The report `analyze_pdf` produces on `wDoc`. -/
def wRep : List PageReport := [analyzePage 1 pgEmpty, analyzePage 2 examplePg]

/-! ## Order and sorting lemmas -/

theorem charLe_cons_iff (a b : Char) (as bs : List Char) :
    charLe (a :: as) (b :: bs) = true ↔
      a.toNat < b.toNat ∨ (a.toNat = b.toNat ∧ charLe as bs = true) := by
  simp only [charLe]
  rcases Nat.lt_trichotomy a.toNat b.toNat with h | h | h
  · rw [if_pos h]
    simp [h]
  · rw [if_neg (by omega), if_neg (by omega)]
    constructor
    · intro hle
      exact Or.inr ⟨h, hle⟩
    · rintro (hlt | ⟨-, hle⟩)
      · omega
      · exact hle
  · rw [if_neg (by omega), if_pos h]
    constructor
    · intro hfalse
      exact (Bool.false_ne_true hfalse).elim
    · rintro (hlt | ⟨heq, -⟩) <;> omega

theorem charLe_total (as bs : List Char) : charLe as bs = true ∨ charLe bs as = true := by
  induction as generalizing bs with
  | nil => exact Or.inl rfl
  | cons a as ih =>
    cases bs with
    | nil => exact Or.inr rfl
    | cons b bs =>
      rcases Nat.lt_trichotomy a.toNat b.toNat with h | h | h
      · exact Or.inl ((charLe_cons_iff a b as bs).mpr (Or.inl h))
      · rcases ih bs with h' | h'
        · exact Or.inl ((charLe_cons_iff a b as bs).mpr (Or.inr ⟨h, h'⟩))
        · exact Or.inr ((charLe_cons_iff b a bs as).mpr (Or.inr ⟨h.symm, h'⟩))
      · exact Or.inr ((charLe_cons_iff b a bs as).mpr (Or.inl h))

theorem charLe_trans (as bs cs : List Char) (h1 : charLe as bs = true)
    (h2 : charLe bs cs = true) : charLe as cs = true := by
  induction as generalizing bs cs with
  | nil => rfl
  | cons a as ih =>
    cases bs with
    | nil => simp [charLe] at h1
    | cons b bs =>
      cases cs with
      | nil => simp [charLe] at h2
      | cons c cs =>
        rw [charLe_cons_iff] at h1 h2 ⊢
        rcases h1 with hab | ⟨hab, tab⟩ <;> rcases h2 with hbc | ⟨hbc, tbc⟩
        · exact Or.inl (by omega)
        · exact Or.inl (by omega)
        · exact Or.inl (by omega)
        · exact Or.inr ⟨by omega, ih bs cs tab tbc⟩

theorem strLe_total (a b : String) : strLe a b = true ∨ strLe b a = true :=
  charLe_total a.data b.data

theorem strLe_trans (a b c : String) (h1 : strLe a b = true) (h2 : strLe b c = true) :
    strLe a c = true :=
  charLe_trans a.data b.data c.data h1 h2

theorem insertTag_perm (s : String) (l : List String) :
    List.Perm (insertTag s l) (s :: l) := by
  induction l with
  | nil => exact List.Perm.refl _
  | cons x xs ih =>
    simp only [insertTag]
    split_ifs with h
    · exact List.Perm.refl _
    · exact (ih.cons x).trans (List.Perm.swap s x xs)

theorem sortTags_perm (l : List String) : List.Perm (sortTags l) l := by
  induction l with
  | nil => exact List.Perm.refl _
  | cons x xs ih => exact (insertTag_perm x (sortTags xs)).trans (ih.cons x)

theorem sorted_insertTag (s : String) (l : List String)
    (h : l.Sorted (fun a b => strLe a b = true)) :
    (insertTag s l).Sorted (fun a b => strLe a b = true) := by
  induction l with
  | nil => simp [insertTag]
  | cons x xs ih =>
    rw [List.sorted_cons] at h
    obtain ⟨hx, hxs⟩ := h
    simp only [insertTag]
    split_ifs with hsx
    · rw [List.sorted_cons]
      refine ⟨?_, ?_⟩
      · intro b hb
        rcases List.mem_cons.mp hb with rfl | hb
        · exact hsx
        · exact strLe_trans s x b hsx (hx b hb)
      · rw [List.sorted_cons]
        exact ⟨hx, hxs⟩
    · rw [List.sorted_cons]
      refine ⟨?_, ih hxs⟩
      intro b hb
      rcases List.mem_cons.mp ((insertTag_perm s xs).mem_iff.mp hb) with rfl | hb
      · rcases strLe_total b x with h' | h'
        · exact absurd h' hsx
        · exact h'
      · exact hx b hb

theorem sortTags_sorted (l : List String) :
    (sortTags l).Sorted (fun a b => strLe a b = true) := by
  induction l with
  | nil => simp [sortTags]
  | cons x xs ih => exact sorted_insertTag x (sortTags xs) ih

theorem sortTags_eq_nil_iff (l : List String) : sortTags l = [] ↔ l = [] := by
  have hlen := (sortTags_perm l).length_eq
  constructor
  · intro h
    rw [h] at hlen
    exact List.length_eq_zero.mp hlen.symm
  · intro h
    subst h
    rfl

/-! ## Set-accumulation lemmas -/

theorem addKind_ne_nil (k : String) (ks : List String) : addKind k ks ≠ [] := by
  unfold addKind
  split_ifs with h
  · rintro rfl
    simp at h
  · simp

theorem mem_addKind (k' k : String) (ks : List String) :
    k' ∈ addKind k ks ↔ k' = k ∨ k' ∈ ks := by
  unfold addKind
  split_ifs with h
  · constructor
    · exact Or.inr
    · rintro (rfl | hm)
      · exact h
      · exact hm
  · simp [or_comm]

theorem foldl_addKind_ne_nil {β : Type} (g : β → String) (bs : List β)
    (ks : List String) (h : ks ≠ []) :
    bs.foldl (fun ls b => addKind (g b) ls) ks ≠ [] := by
  induction bs generalizing ks with
  | nil => exact h
  | cons b rest ih => exact ih (addKind (g b) ks) (addKind_ne_nil (g b) ks)

theorem foldl_addKind_nil_iff {β : Type} (g : β → String) (bs : List β) :
    bs.foldl (fun ls b => addKind (g b) ls) [] = [] ↔ bs = [] := by
  cases bs with
  | nil => simp
  | cons b rest =>
    simp only [List.foldl_cons]
    constructor
    · intro h
      exact absurd h (foldl_addKind_ne_nil g rest (addKind (g b) []) (addKind_ne_nil (g b) []))
    · intro h
      exact absurd h (by simp)

/-! ## Page-loop lemmas -/

theorem analyzeLoop_ok_map_page (ps : List Page) :
    ∀ (i : Nat) (acc res : List PageReport), analyzeLoop i ps acc = .ok res →
      res.map PageReport.page = acc.map PageReport.page ++ List.range' i ps.length := by
  induction ps with
  | nil =>
    intro i acc res h
    simp only [analyzeLoop] at h
    cases h
    simp
  | cons p rest ih =>
    intro i acc res h
    cases p with
    | ok c =>
      simp only [analyzeLoop] at h
      have hm := ih (i + 1) (acc ++ [analyzePage i c]) res h
      rw [hm]
      simp only [List.map_append, List.map_cons, List.map_nil, List.length_cons,
        List.range'_succ, List.append_assoc]
      rfl
    | corrupt => simp [analyzeLoop] at h

/-! ## Item-filtering lemmas -/

theorem foldl_itemKind_filter_other (d : List DrawItem) (ks : List String) :
    (d.filter (fun it => !it.isOther)).foldl
        (fun ks item =>
          match itemKind item with
          | some k => addKind k ks
          | none => ks) ks =
      d.foldl
        (fun ks item =>
          match itemKind item with
          | some k => addKind k ks
          | none => ks) ks := by
  induction d generalizing ks with
  | nil => rfl
  | cons it rest ih =>
    cases it with
    | dict t => simpa [List.filter, DrawItem.isOther, itemKind] using ih _
    | tup op => simpa [List.filter, DrawItem.isOther, itemKind] using ih _
    | other => simpa [List.filter, DrawItem.isOther, itemKind] using ih ks

theorem foldl_drawings_filter_other (ds : List (List DrawItem)) :
    ∀ init : List String,
      ds.foldl
          (fun ks d =>
            (d.filter (fun it => !it.isOther)).foldl
              (fun ks item =>
                match itemKind item with
                | some k => addKind k ks
                | none => ks) ks) init =
        ds.foldl
          (fun ks d =>
            d.foldl
              (fun ks item =>
                match itemKind item with
                | some k => addKind k ks
                | none => ks) ks) init := by
  induction ds with
  | nil => intro init; rfl
  | cons d rest ih =>
    intro init
    simp only [List.foldl_cons]
    rw [foldl_itemKind_filter_other d init]
    exact ih _

theorem collect_filter_other (ds : List (List DrawItem)) :
    collect_vector_kinds_from_drawings (ds.map (fun d => d.filter (fun it => !it.isOther))) =
      collect_vector_kinds_from_drawings ds := by
  unfold collect_vector_kinds_from_drawings
  rw [List.foldl_map]
  exact foldl_drawings_filter_other ds []

/-! ## Claim theorems -/

/-- C1: the rules of `classify_raster_block` are evaluated in order with
inclusive boundaries: an area ratio of exactly 0.6 yields `scanned_page`
(not `large_image`), exactly 0.1 yields `large_image` (not the
between-branch `image`), and exactly 0.02 enters the placement-based
branch rather than the generic `image` branch. -/
theorem classify_boundary_exact (x0 y0 x1 y1 pw ph : ℚ) :
    (ratioOf x0 y0 x1 y1 pw ph = 6/10 →
      classify_raster_block x0 y0 x1 y1 pw ph = "scanned_page") ∧
    (ratioOf x0 y0 x1 y1 pw ph = 1/10 →
      classify_raster_block x0 y0 x1 y1 pw ph = "large_image") ∧
    (ratioOf x0 y0 x1 y1 pw ph = 2/100 →
      classify_raster_block x0 y0 x1 y1 pw ph = placementLabel x0 y0 x1 y1 pw ph) := by
  simp only [classify_raster_block]
  refine ⟨fun h => ?_, fun h => ?_, fun h => ?_⟩ <;> rw [h] <;> norm_num

/-- Witness for `classify_boundary_exact`: on a 10×10 page, a 10×6 box has
ratio exactly 0.6, a 10×1 box exactly 0.1, and a 2×1 box exactly 0.02. -/
theorem classify_boundary_exact_witness :
    classify_raster_block 0 0 10 6 10 10 = "scanned_page" ∧
    classify_raster_block 0 0 10 1 10 10 = "large_image" ∧
    classify_raster_block 0 0 2 1 10 10 = placementLabel 0 0 2 1 10 10 :=
  ⟨(classify_boundary_exact 0 0 10 6 10 10).1 (by norm_num [ratioOf, max_def]),
   (classify_boundary_exact 0 0 10 1 10 10).2.1 (by norm_num [ratioOf, max_def]),
   (classify_boundary_exact 0 0 2 1 10 10).2.2 (by norm_num [ratioOf, max_def])⟩

/-- C2: evaluating the collector at the failing input: a positional tuple
with operator code `"Q"` contributes `"save_state"`, not the
`"restore_state"` the table (and the claim) say — the code lower-cases the
operator before the lookup, so the `"Q"` entry of `OPERATOR_MAP` is
unreachable. -/
theorem tuple_Q_yields_save_state :
    collect_vector_kinds_from_drawings [[DrawItem.tup "Q"]] = ["save_state"] ∧
    itemKind (DrawItem.tup "Q") = some "save_state" ∧
    ("save_state" : String) ≠ "restore_state" :=
  ⟨by decide, by decide, by decide⟩

/-- C3 counterexample: on a one-page document whose page raises during
extraction, `analyze_pdf` propagates the error with the document handle
still open — the claim that the handle is closed on every exit path fails
at this input. -/
theorem analyze_pdf_open_after_error :
    (analyze_pdf ⟨[Page.corrupt]⟩).result = Except.error () ∧
    (analyze_pdf ⟨[Page.corrupt]⟩).docClosed = false :=
  ⟨rfl, rfl⟩

/-- C3 amended: `analyze_pdf` closes the document exactly on the normal
exit path — the handle is closed if and only if the call returns a report
rather than propagating an error. -/
theorem analyze_pdf_closed_iff_ok (doc : Doc) :
    (analyze_pdf doc).docClosed = true ↔
      ∃ rep : List PageReport, (analyze_pdf doc).result = Except.ok rep := by
  unfold analyze_pdf
  cases h : analyzeLoop 1 doc.pages [] with
  | ok res => simp
  | error e => simp

/-- C4: in every `PageReport`, `vector_content` holds iff `vector_objects`
is non-empty, `raster_content` holds iff the page had at least one image
block, and (every image block yielding exactly one label) `raster_content`
holds iff `raster_objects` is non-empty; a page with no image blocks gets
`raster_content = false` and `raster_objects = []`, and a page with no
drawings and no selectable text gets `vector_content = false` and
`vector_objects = []`. -/
theorem analyzePage_raster_objects_nil (i : Nat) (pg : PageContent) :
    (analyzePage i pg).raster_objects = [] ↔ pg.imageBlocks = [] := by
  simp only [analyzePage]
  rw [sortTags_eq_nil_iff, foldl_addKind_nil_iff]

theorem pageReport_invariants (i : Nat) (pg : PageContent) :
    ((analyzePage i pg).vector_content = true ↔ (analyzePage i pg).vector_objects ≠ []) ∧
    ((analyzePage i pg).raster_content = true ↔ pg.imageBlocks ≠ []) ∧
    ((analyzePage i pg).raster_content = true ↔ (analyzePage i pg).raster_objects ≠ []) ∧
    (pg.imageBlocks = [] →
      (analyzePage i pg).raster_content = false ∧ (analyzePage i pg).raster_objects = []) ∧
    (pg.drawings = [] → pg.words = 0 →
      (analyzePage i pg).vector_content = false ∧ (analyzePage i pg).vector_objects = []) := by
  have hro := analyzePage_raster_objects_nil i pg
  have hrc : (analyzePage i pg).raster_content = true ↔ pg.imageBlocks ≠ [] := by
    simp [analyzePage]
  refine ⟨?_, hrc, ?_, ?_, ?_⟩
  · simp [analyzePage]
  · rw [hrc]
    exact (not_congr hro).symm
  · intro h
    refine ⟨?_, hro.mpr h⟩
    simp [analyzePage, h]
  · intro hd hw
    constructor
    · simp [analyzePage, hd, hw, collect_vector_kinds_from_drawings, sortTags]
    · simp [analyzePage, hd, hw, collect_vector_kinds_from_drawings, sortTags]

/-- Witness for `pageReport_invariants`: the empty page has no raster and
no vector content. -/
theorem pageReport_invariants_witness :
    ((analyzePage 1 pgEmpty).raster_content = false ∧
      (analyzePage 1 pgEmpty).raster_objects = []) ∧
    ((analyzePage 1 pgEmpty).vector_content = false ∧
      (analyzePage 1 pgEmpty).vector_objects = []) :=
  ⟨(pageReport_invariants 1 pgEmpty).2.2.2.1 rfl,
   (pageReport_invariants 1 pgEmpty).2.2.2.2 rfl rfl⟩

/-- C5: `vector_objects` is `"text"` first iff the page has selectable
text, followed by the collected drawing kinds in ascending lexicographic
(code-point) order; in the §8 scenario (text plus kinds `rect`, `line`)
the output is `["text", "line", "rect"]`. -/
theorem vector_objects_ordering (i : Nat) (pg : PageContent) :
    ∃ rest : List String,
      (analyzePage i pg).vector_objects =
        (if 0 < pg.words then ["text"] else []) ++ rest ∧
      rest.Sorted (fun a b => strLe a b = true) ∧
      List.Perm rest (collect_vector_kinds_from_drawings pg.drawings) ∧
      (analyzePage 3 examplePg).vector_objects = ["text", "line", "rect"] :=
  ⟨sortTags (collect_vector_kinds_from_drawings pg.drawings),
   rfl, sortTags_sorted _, sortTags_perm _, by decide⟩

/-- C6: for a box whose area ratio is at most 0.02,
`classify_raster_block` returns `stamp` when the box is near the bottom
and near a horizontal edge (regardless of the logo test: the stamp rule is
evaluated first), otherwise `logo` when near the top and near a horizontal
edge, and otherwise `image`. -/
theorem classify_small_placement (x0 y0 x1 y1 pw ph : ℚ)
    (hr : ratioOf x0 y0 x1 y1 pw ph ≤ 2/100) :
    (85/100 * ph ≤ y1 ∧ (85/100 * pw ≤ x1 ∨ x0 ≤ 15/100 * pw) →
      classify_raster_block x0 y0 x1 y1 pw ph = "stamp") ∧
    (¬(85/100 * ph ≤ y1 ∧ (85/100 * pw ≤ x1 ∨ x0 ≤ 15/100 * pw)) →
      y0 ≤ 15/100 * ph ∧ (85/100 * pw ≤ x1 ∨ x0 ≤ 15/100 * pw) →
      classify_raster_block x0 y0 x1 y1 pw ph = "logo") ∧
    (¬(85/100 * ph ≤ y1 ∧ (85/100 * pw ≤ x1 ∨ x0 ≤ 15/100 * pw)) →
      ¬(y0 ≤ 15/100 * ph ∧ (85/100 * pw ≤ x1 ∨ x0 ≤ 15/100 * pw)) →
      classify_raster_block x0 y0 x1 y1 pw ph = "image") := by
  have hcl : classify_raster_block x0 y0 x1 y1 pw ph = placementLabel x0 y0 x1 y1 pw ph := by
    simp only [classify_raster_block]
    rw [if_neg (by linarith), if_neg (by linarith), if_pos hr]
  rw [hcl]
  unfold placementLabel
  refine ⟨fun hA => ?_, fun hnA hB => ?_, fun hnA hnB => ?_⟩
  · rw [if_pos hA]
  · rw [if_neg hnA, if_pos hB]
  · rw [if_neg hnA, if_neg hnB]

/-- Witness for `classify_small_placement`: on a 10×10 page, a full-height
sliver at the left edge has ratio exactly 0.02 and satisfies both the
stamp and the logo placement tests; it is classified `stamp`. -/
theorem classify_small_placement_witness :
    ratioOf 0 0 (2/10) 10 10 10 ≤ 2/100 ∧
    classify_raster_block 0 0 (2/10) 10 10 10 = "stamp" :=
  ⟨by norm_num [ratioOf, max_def],
   (classify_small_placement 0 0 (2/10) 10 10 10 (by norm_num [ratioOf, max_def])).1
     (by norm_num)⟩

/-- C7: `classify_raster_block` is total: for every bounding box and page
geometry the (clamped, division-safe) ratio is well defined and
non-negative and the result is one of the five labels. -/
theorem classify_total (x0 y0 x1 y1 pw ph : ℚ) :
    0 ≤ ratioOf x0 y0 x1 y1 pw ph ∧
    classify_raster_block x0 y0 x1 y1 pw ph ∈
      (["scanned_page", "large_image", "logo", "stamp", "image"] : List String) := by
  constructor
  · unfold ratioOf
    apply div_nonneg
    · exact mul_nonneg (le_max_left 0 _) (le_max_left 0 _)
    · exact le_trans zero_le_one (le_max_left 1 _)
  · simp only [classify_raster_block, placementLabel]
    split_ifs <;> simp

/-- C8: a positional tuple whose lower-cased operator code is absent from
`OPERATOR_MAP` passes the code through as its own tag; `"re"` maps to
`"rect"`, the unmapped `"xy"` stays `"xy"`, and every tuple item
contributes a tag. -/
theorem tuple_op_passthrough (op : String)
    (h : OPERATOR_MAP.lookup (lowerStr op) = none) :
    itemKind (DrawItem.tup op) = some (lowerStr op) ∧
    collect_vector_kinds_from_drawings [[DrawItem.tup "re"]] = ["rect"] ∧
    collect_vector_kinds_from_drawings [[DrawItem.tup "xy"]] = ["xy"] ∧
    ∀ o : String, ∃ k : String, itemKind (DrawItem.tup o) = some k := by
  refine ⟨?_, by decide, by decide, fun o => ⟨_, rfl⟩⟩
  simp [itemKind, h]

/-- Witness for `tuple_op_passthrough`: instantiated at the unmapped
operator code `"xy"`. -/
theorem tuple_op_passthrough_witness :
    OPERATOR_MAP.lookup (lowerStr "xy") = none ∧
    (itemKind (DrawItem.tup "xy") = some (lowerStr "xy") ∧
      collect_vector_kinds_from_drawings [[DrawItem.tup "re"]] = ["rect"] ∧
      collect_vector_kinds_from_drawings [[DrawItem.tup "xy"]] = ["xy"] ∧
      ∀ o : String, ∃ k : String, itemKind (DrawItem.tup o) = some k) :=
  ⟨by decide, tuple_op_passthrough "xy" (by decide)⟩

/-- C9: a successfully returned report has one entry per document page and
its `page` fields are the consecutive integers 1, …, n in order. -/
theorem analyze_pdf_page_numbering (doc : Doc) (rep : List PageReport)
    (h : (analyze_pdf doc).result = Except.ok rep) :
    rep.length = doc.pages.length ∧
    rep.map PageReport.page = List.range' 1 doc.pages.length := by
  unfold analyze_pdf at h
  cases hloop : analyzeLoop 1 doc.pages [] with
  | ok res =>
    rw [hloop] at h
    simp only [Except.ok.injEq] at h
    subst h
    have hm := analyzeLoop_ok_map_page doc.pages 1 [] res hloop
    simp only [List.map_nil, List.nil_append] at hm
    constructor
    · have hlen := congrArg List.length hm
      simpa using hlen
    · exact hm
  | error e =>
    rw [hloop] at h
    simp at h

/-- Witness for `analyze_pdf_page_numbering`: a concrete two-page document
yields a two-entry report numbered 1, 2. -/
theorem analyze_pdf_page_numbering_witness :
    (analyze_pdf wDoc).result = Except.ok wRep ∧
    (wRep.length = wDoc.pages.length ∧
      wRep.map PageReport.page = List.range' 1 wDoc.pages.length) :=
  ⟨rfl, analyze_pdf_page_numbering wDoc wRep rfl⟩

/-- C10: a dictionary item without a `"type"` key contributes the empty
string as a kind tag; a page whose only drawing item is such a record gets
`vector_content = true` with `""` among its `vector_objects`; and items
that are neither dictionaries nor tuples contribute nothing (filtering
them out of every drawing leaves the collected kinds unchanged). -/
theorem dict_without_type_defaults_empty (i : Nat) :
    collect_vector_kinds_from_drawings [[DrawItem.dict none]] = [""] ∧
    (analyzePage i dictOnlyPg).vector_content = true ∧
    "" ∈ (analyzePage i dictOnlyPg).vector_objects ∧
    (∀ ds : List (List DrawItem),
      collect_vector_kinds_from_drawings (ds.map (fun d => d.filter (fun it => !it.isOther))) =
        collect_vector_kinds_from_drawings ds) := by
  refine ⟨by decide, rfl, ?_, collect_filter_other⟩
  exact List.mem_singleton.mpr rfl

end PdfInspector
